import Mathlib

/-!
Shallow embedding of `sparseinst/sparseinst_point.py` (SparseInst with
BoxInst-style weak supervision from boxes and colour similarity).

Tensors are modelled as a shape (a list of dimension sizes) together with a
total entry function on multi-indices; machine floats are modelled as exact
real numbers, box coordinates as rationals.  A Python function that can
raise (a failing `assert`, an `AttributeError`, `torch.stack([])`) is
modelled as returning `Option`, with `none` for the aborted call.
-/

/-- A 2-D grid of reals (one spatial plane of a float tensor). -/
structure GridR where
  h : ℕ
  w : ℕ
  entry : ℕ → ℕ → ℝ

/-- A 2-D boolean grid (a thresholded mask). -/
structure GridB where
  h : ℕ
  w : ℕ
  entry : ℕ → ℕ → Bool

/-- A 2-D grid of rationals (a pseudo-mask canvas). -/
structure GridQ where
  h : ℕ
  w : ℕ
  entry : ℕ → ℕ → ℚ

/-- `(masks * mask_pred_.float()).sum([1, 2])` for one detection: the mass of
the soft mask inside the boolean mask. -/
noncomputable def gridProdSum (m : GridR) (bp : GridB) : ℝ :=
  ∑ i ∈ Finset.range m.h, ∑ j ∈ Finset.range m.w,
    m.entry i j * (if bp.entry i j then (1 : ℝ) else 0)

/-- `mask_pred_.float().sum([1, 2])` for one detection: the pixel count of the
boolean mask. -/
noncomputable def gridBoolSum (bp : GridB) : ℝ :=
  ∑ i ∈ Finset.range bp.h, ∑ j ∈ Finset.range bp.w,
    (if bp.entry i j then (1 : ℝ) else 0)

/-- Total mass of a soft mask, `masks.sum([1, 2])` for one detection. -/
noncomputable def gridSumR (m : GridR) : ℝ :=
  ∑ i ∈ Finset.range m.h, ∑ j ∈ Finset.range m.w, m.entry i j

/-- `rescoring_mask(scores, mask_pred, masks)` from the source, one entry per
detection: `scores * ((masks * mask_pred_).sum([1,2]) /
(mask_pred_.sum([1,2]) + 1e-6))`, where `mask_pred` is the thresholded
boolean mask and `masks` the soft (sigmoid) mask.  Note the denominator is
the boolean mask's sum. -/
noncomputable def rescoring_mask (scores : List ℝ) (mask_pred : List GridB)
    (masks : List GridR) : List ℝ :=
  List.zipWith
    (fun s pm => s * (gridProdSum pm.2 pm.1 / (gridBoolSum pm.1 + 1 / 1000000)))
    scores (mask_pred.zip masks)

/-- Modelled from the spec: the specification's rescoring formula
`score * (sum(boolean_mask * soft_mask) / (sum(soft_mask) + epsilon))`, whose
denominator is the soft mask's total mass.  It is compared against the
source's `rescoring_mask`, whose denominator is the boolean mask's mass. -/
noncomputable def rescoring_mask_spec (scores : List ℝ) (mask_pred : List GridB)
    (masks : List GridR) : List ℝ :=
  List.zipWith
    (fun s pm => s * (gridProdSum pm.2 pm.1 / (gridSumR pm.2 + 1 / 1000000)))
    scores (mask_pred.zip masks)

/-- A `1×1` boolean mask `[[True]]`. -/
def oneOneTrue : GridB := ⟨1, 1, fun _ _ => true⟩

/-- A `1×1` soft mask `[[0.5]]`. -/
noncomputable def oneOneHalf : GridR := ⟨1, 1, fun _ _ => (1 : ℝ) / 2⟩

/-- A `1×1` soft mask `[[0]]`. -/
def oneOneZero : GridR := ⟨1, 1, fun _ _ => 0⟩

/-- A `1×1` soft mask `[[1]]`. -/
def oneOneOne : GridR := ⟨1, 1, fun _ _ => 1⟩

/-- C4 (counterexample): with score `1`, boolean mask `[[True]]` and soft mask
`[[1/2]]` — the boolean mask covers the soft mask's entire support — the
source's `rescoring_mask` returns `(1/2)/(1 + 1e-6) ≈ 0.5`, not the claimed
formula's value `(1/2)/(1/2 + 1e-6) ≈ 1`: the code divides by the boolean
mask's sum, the claim divides by the soft mask's sum, so the claimed formula
and the claimed perfect-overlap identity both fail on the code. -/
theorem rescoring_mask_formula_counterexample :
    rescoring_mask [1] [oneOneTrue] [oneOneHalf]
        ≠ rescoring_mask_spec [1] [oneOneTrue] [oneOneHalf] ∧
    rescoring_mask [1] [oneOneTrue] [oneOneHalf]
        = [(1 / 2 : ℝ) / (1 + 1 / 1000000)] ∧
    rescoring_mask_spec [1] [oneOneTrue] [oneOneHalf]
        = [(1 / 2 : ℝ) / (1 / 2 + 1 / 1000000)] := by
  have h1 : rescoring_mask [1] [oneOneTrue] [oneOneHalf]
      = [(1 / 2 : ℝ) / (1 + 1 / 1000000)] := by
    simp [rescoring_mask, gridProdSum, gridBoolSum, oneOneTrue, oneOneHalf]
  have h2 : rescoring_mask_spec [1] [oneOneTrue] [oneOneHalf]
      = [(1 / 2 : ℝ) / (1 / 2 + 1 / 1000000)] := by
    simp [rescoring_mask_spec, gridProdSum, gridSumR, oneOneTrue, oneOneHalf]
  refine ⟨?_, h1, h2⟩
  rw [h1, h2]
  intro h
  have := List.head_eq_of_cons_eq h
  norm_num at this

/-- C4 (amended): the source rescoring divides by the boolean mask's own mass:
`score * (sum(bool*soft)/(sum(bool) + 1e-6))`; for a fixed boolean mask and a
nonnegative score, a soft mask with a larger overlap sum gets a rescored score
at least as large; and when the soft mask is `1` everywhere on the boolean
support, the rescored score equals the original score times the epsilon
perturbation `n/(n + 1e-6)` of the denominator (`n` the boolean mass). -/
theorem rescoring_mask_amended (s : ℝ) (bp : GridB) (m1 m2 m3 : GridR)
    (hs : 0 ≤ s)
    (hmono : gridProdSum m1 bp ≤ gridProdSum m2 bp)
    (hcover : ∀ i j, i < m3.h → j < m3.w → bp.entry i j = true → m3.entry i j = 1)
    (hd3h : m3.h = bp.h) (hd3w : m3.w = bp.w) :
    rescoring_mask [s] [bp] [m1]
        = [s * (gridProdSum m1 bp / (gridBoolSum bp + 1 / 1000000))] ∧
    (rescoring_mask [s] [bp] [m1]).headD 0
        ≤ (rescoring_mask [s] [bp] [m2]).headD 0 ∧
    rescoring_mask [s] [bp] [m3]
        = [s * (gridBoolSum bp / (gridBoolSum bp + 1 / 1000000))] := by
  have hden : (0 : ℝ) < gridBoolSum bp + 1 / 1000000 := by
    have h0 : (0 : ℝ) ≤ gridBoolSum bp := by
      apply Finset.sum_nonneg
      intro i _
      apply Finset.sum_nonneg
      intro j _
      by_cases hb : bp.entry i j <;> simp [hb]
    linarith
  refine ⟨by simp [rescoring_mask], ?_, ?_⟩
  · simp only [rescoring_mask, List.zip_cons_cons, List.zipWith_cons_cons,
      List.zip_nil_right, List.zipWith_nil_right, List.headD_cons]
    apply mul_le_mul_of_nonneg_left _ hs
    exact div_le_div_of_nonneg_right hmono hden.le
  · have hsum : gridProdSum m3 bp = gridBoolSum bp := by
      unfold gridProdSum gridBoolSum
      rw [← hd3h, ← hd3w]
      apply Finset.sum_congr rfl
      intro i hi
      apply Finset.sum_congr rfl
      intro j hj
      by_cases hb : bp.entry i j
      · simp [hb, hcover i j (Finset.mem_range.mp hi) (Finset.mem_range.mp hj) hb]
      · simp [hb]
    simp [rescoring_mask, hsum]

/-- C4 (witness for the amended theorem): the rescored score at zero overlap is
at most the rescored score at overlap `1/2`, for the `1×1` boolean mask. -/
theorem rescoring_mask_amended_witness :
    (rescoring_mask [1] [oneOneTrue] [oneOneZero]).headD 0
        ≤ (rescoring_mask [1] [oneOneTrue] [oneOneHalf]).headD 0 :=
  (rescoring_mask_amended 1 oneOneTrue oneOneZero oneOneHalf oneOneOne
    zero_le_one
    (by simp [gridProdSum, oneOneTrue, oneOneZero, oneOneHalf])
    (fun i j _ _ _ => rfl) rfl rfl).2.1

/-- A tensor: a shape (list of dimension sizes) plus a total entry function on
multi-indices (row-major semantics; out-of-range reads are irrelevant junk). -/
structure PyTensor where
  shape : List ℕ
  entry : List ℕ → ℝ

/-- Row-major flat index of a multi-index under a shape. -/
def flatIdx : List ℕ → List ℕ → ℕ
  | _ :: ds, i :: is => i * ds.prod + flatIdx ds is
  | _, _ => 0

/-- Multi-index of a row-major flat index under a shape. -/
def multiIdx : List ℕ → ℕ → List ℕ
  | [], _ => []
  | _ :: ds, n => n / ds.prod :: multiIdx ds (n % ds.prod)

/-- Zero-padded read of a 4-D tensor at (possibly negative) integer spatial
coordinates, as produced by `F.unfold`'s implicit zero padding. -/
def padGet (x : PyTensor) (b c : ℕ) (i j : ℤ) : ℝ :=
  if 0 ≤ i ∧ i < (x.shape.getD 2 0 : ℤ) ∧ 0 ≤ j ∧ j < (x.shape.getD 3 0 : ℤ)
  then x.entry [b, c, i.toNat, j.toNat] else 0

/-- `F.unfold(x, kernel_size=k, padding=p, dilation=d)` (stride 1) on a 4-D
input `(B, C, H, W)`: output `(B, C·k², outH·outW)` with
`outH = H + 2p − d(k−1)`, entry `(b, c·k²+t, l)` reading the zero-padded input
at the `t`-th kernel tap of sliding-window position `l`. -/
def unfold2d (x : PyTensor) (k p d : ℕ) : PyTensor :=
  let H := x.shape.getD 2 0
  let W := x.shape.getD 3 0
  let outH := H + 2 * p - d * (k - 1)
  let outW := W + 2 * p - d * (k - 1)
  { shape := [x.shape.getD 0 0, x.shape.getD 1 0 * (k * k), outH * outW],
    entry := fun idx =>
      let b := idx.getD 0 0
      let ct := idx.getD 1 0
      let l := idx.getD 2 0
      let c := ct / (k * k)
      let t := ct % (k * k)
      padGet x b c
        (((l / outW : ℕ) : ℤ) + ((t / k : ℕ) : ℤ) * (d : ℤ) - (p : ℤ))
        (((l % outW : ℕ) : ℤ) + ((t % k : ℕ) : ℤ) * (d : ℤ) - (p : ℤ)) }

/-- `t.reshape(before…, -1, after…)`: the `-1` dimension is inferred as the
element count divided by the product of the given dimensions; entries are
re-addressed through the row-major flat index. -/
def reshapeNeg1 (t : PyTensor) (before after : List ℕ) : PyTensor :=
  let m := t.shape.prod / (before.prod * after.prod)
  let ns := before ++ m :: after
  { shape := ns, entry := fun idx => t.entry (multiIdx t.shape (flatIdx ns idx)) }

/-- `torch.cat((u[:, :, :size // 2], u[:, :, size // 2 + 1:]), dim=2)` on a 5-D
tensor: drops the centre slice of dimension 2. -/
def catCenterRemoved (t : PyTensor) (size : ℕ) : PyTensor :=
  let m := t.shape.getD 2 0
  let firstLen := min (size / 2) m
  let secondLen := m - (size / 2 + 1)
  { shape := [t.shape.getD 0 0, t.shape.getD 1 0, firstLen + secondLen,
              t.shape.getD 3 0, t.shape.getD 4 0],
    entry := fun idx =>
      let n := idx.getD 2 0
      if n < firstLen then t.entry idx
      else t.entry (idx.set 2 (size / 2 + 1 + (n - firstLen))) }

/-- Body of `unfold_wo_center` after the asserts: SAME padding
`(k + (d−1)(k−1)) // 2`, `F.unfold`, reshape to `(B, C, −1, H, W)`, and removal
of the centre tap. -/
def unfold_wo_center_core (x : PyTensor) (kernel_size dilation : ℕ) : PyTensor :=
  let padding := (kernel_size + (dilation - 1) * (kernel_size - 1)) / 2
  let u := unfold2d x kernel_size padding dilation
  let r := reshapeNeg1 u [x.shape.getD 0 0, x.shape.getD 1 0]
      [x.shape.getD 2 0, x.shape.getD 3 0]
  catCenterRemoved r (kernel_size * kernel_size)

/-- `unfold_wo_center(x, kernel_size, dilation)`; `none` models the fatal
`assert x.dim() == 4` / `assert kernel_size % 2 == 1` failures. -/
def unfold_wo_center (x : PyTensor) (kernel_size dilation : ℕ) : Option PyTensor :=
  if x.shape.length = 4 ∧ kernel_size % 2 = 1
  then some (unfold_wo_center_core x kernel_size dilation)
  else none

lemma same_padding_doubled (k d : ℕ) (hk : k % 2 = 1) (hd : 1 ≤ d) :
    2 * ((k + (d - 1) * (k - 1)) / 2) = d * (k - 1) := by
  obtain ⟨a, ha⟩ : ∃ a, k = 2 * a + 1 := ⟨k / 2, by omega⟩
  obtain ⟨e, he⟩ : ∃ e, d = e + 1 := ⟨d - 1, by omega⟩
  subst ha he
  have h1 : 2 * a + 1 + (e + 1 - 1) * (2 * a + 1 - 1) = 2 * (a * (e + 1)) + 1 := by
    simp only [Nat.add_sub_cancel]
    ring
  rw [h1, Nat.mul_add_div (by norm_num : 0 < 2)]
  simp only [Nat.add_sub_cancel]
  ring_nf

lemma unfold_wo_center_core_shape (x : PyTensor) (B C H W k d : ℕ)
    (hs : x.shape = [B, C, H, W]) (hk : k % 2 = 1) (hd : 1 ≤ d)
    (hB : 0 < B) (hC : 0 < C) (hH : 0 < H) (hW : 0 < W) :
    (unfold_wo_center_core x k d).shape = [B, C, k * k - 1, H, W] := by
  have h2p := same_padding_doubled k d hk hd
  have hodd : k * k % 2 = 1 := Nat.odd_mul_odd hk hk
  simp only [unfold_wo_center_core, unfold2d, reshapeNeg1, catCenterRemoved, hs,
    List.getD_cons_zero, List.getD_cons_succ, List.prod_cons, List.prod_nil,
    List.cons_append, List.nil_append]
  set p := (k + (d - 1) * (k - 1)) / 2 with hp
  set q := d * (k - 1) with hq
  have houtH : H + 2 * p - q = H := by omega
  have houtW : W + 2 * p - q = W := by omega
  rw [houtH, houtW]
  have hm : B * (C * (k * k) * (H * W * 1)) / (B * (C * 1) * (H * (W * 1)))
      = k * k := by
    have hx : B * (C * (k * k) * (H * W * 1)) = B * (C * 1) * (H * (W * 1)) * (k * k) := by
      ring
    rw [hx, Nat.mul_div_cancel_left]
    positivity
  rw [hm]
  have hmin : min (k * k / 2) (k * k) = k * k / 2 :=
    min_eq_left (Nat.div_le_self _ _)
  rw [hmin]
  have hthird : k * k / 2 + (k * k - (k * k / 2 + 1)) = k * k - 1 := by
    set s := k * k
    omega
  simp only [List.getD_cons_zero, List.getD_cons_succ, hthird]

/-- C5: for every 4-D input `(B, C, H, W)` (all dimensions positive), every odd
kernel size `k ≥ 3` and every dilation `d ≥ 1`, `unfold_wo_center` succeeds and
returns a tensor of shape `(B, C, k²−1, H, W)`: SAME padding makes the spatial
output sizes equal `H` and `W`, and the centre tap is removed from the `k²`
neighbourhood dimension. -/
theorem unfold_wo_center_output_shape (x : PyTensor) (B C H W k d : ℕ)
    (hs : x.shape = [B, C, H, W]) (hk : k % 2 = 1) (hk3 : 3 ≤ k) (hd : 1 ≤ d)
    (hB : 0 < B) (hC : 0 < C) (hH : 0 < H) (hW : 0 < W) :
    (unfold_wo_center x k d).elim False
      (fun y => y.shape = [B, C, k * k - 1, H, W]) := by
  have hcond : x.shape.length = 4 ∧ k % 2 = 1 := by
    constructor
    · rw [hs]; rfl
    · exact hk
  rw [unfold_wo_center, if_pos hcond]
  exact unfold_wo_center_core_shape x B C H W k d hs hk hd hB hC hH hW

/-- A concrete `1×1×3×3` zero tensor. -/
noncomputable def tZero3 : PyTensor := ⟨[1, 1, 3, 3], fun _ => 0⟩

/-- C5 (witness): on the `1×1×3×3` zero tensor with `k = 3`, `d = 2`,
`unfold_wo_center` succeeds with output shape `(1, 1, 8, 3, 3)`. -/
theorem unfold_wo_center_output_shape_witness :
    (unfold_wo_center tZero3 3 2).elim False
      (fun y => y.shape = [1, 1, 8, 3, 3]) :=
  unfold_wo_center_output_shape tZero3 1 1 3 3 3 2 rfl (by norm_num)
    (by norm_num) (by norm_num) (by norm_num) (by norm_num) (by norm_num)
    (by norm_num)

/-- `t[None, None]`: prepend two singleton dimensions. -/
def unsqueeze2 (t : PyTensor) : PyTensor :=
  { shape := 1 :: 1 :: t.shape, entry := fun idx => t.entry (idx.drop 2) }

/-- `t[:, 0]`: index dimension 1 at `0`, removing it. -/
def selectChannel0 (t : PyTensor) : PyTensor :=
  { shape := t.shape.take 1 ++ t.shape.drop 2,
    entry := fun idx => t.entry (idx.take 1 ++ 0 :: idx.drop 1) }

/-- Shape after `torch.norm(·, dim=1)`: dimension 1 removed. -/
def dropDim1 (l : List ℕ) : List ℕ := l.take 1 ++ l.drop 2

/-- The validity-weight tensor of `get_images_color_similarity`:
`unfold_wo_center(image_masks[None, None], …)[:, 0]`. -/
def colorSimWeights (image_masks : PyTensor) (kernel_size dilation : ℕ) :
    Option PyTensor :=
  (unfold_wo_center (unsqueeze2 image_masks) kernel_size dilation).map
    selectChannel0

/-- One entry of `torch.exp(-torch.norm(images[:, :, None] - unfolded_images,
dim=1) * 0.5)` at multi-index `(b, n, i, j)`: the channel-wise Euclidean
distance between the centre pixel and the `n`-th neighbour, mapped through
`exp(-·/2)`. -/
noncomputable def simEntry (images unfolded : PyTensor) (idx : List ℕ) : ℝ :=
  Real.exp (-(Real.sqrt (∑ c ∈ Finset.range (images.shape.getD 1 0),
      (images.entry [idx.getD 0 0, c, idx.getD 2 0, idx.getD 3 0]
        - unfolded.entry
            [idx.getD 0 0, c, idx.getD 1 0, idx.getD 2 0, idx.getD 3 0]) ^ 2))
    * (1 / 2))

/-- `get_images_color_similarity(images, image_masks, kernel_size, dilation)`:
`none` models the fatal `assert images.dim() == 4` /
`assert images.size(0) == 1` failures (and a failing assert inside the inner
`unfold_wo_center` calls). -/
noncomputable def get_images_color_similarity (images image_masks : PyTensor)
    (kernel_size dilation : ℕ) : Option PyTensor :=
  if images.shape.length = 4 ∧ images.shape.getD 0 0 = 1 then
    (unfold_wo_center images kernel_size dilation).bind fun unfolded_images =>
      (colorSimWeights image_masks kernel_size dilation).map fun uw =>
        { shape := dropDim1 unfolded_images.shape,
          entry := fun idx => simEntry images unfolded_images idx * uw.entry idx }
  else none

/-- C7: every entry of the colour-similarity output is
`exp(-0.5·distance) * weight`; wherever the validity weight is `1` the value
lies in `(0, 1]`, and wherever the weight is `0` the value is `0`. -/
theorem color_similarity_entry_range (images image_masks : PyTensor) (k d : ℕ)
    (idx : List ℕ)
    (h4 : images.shape.length = 4) (hb : images.shape.getD 0 0 = 1)
    (hk : k % 2 = 1) (hm : image_masks.shape.length = 2) :
    (get_images_color_similarity images image_masks k d).elim False fun y =>
      (colorSimWeights image_masks k d).elim False fun uw =>
        (uw.entry idx = 1 → 0 < y.entry idx ∧ y.entry idx ≤ 1) ∧
        (uw.entry idx = 0 → y.entry idx = 0) := by
  have hu1 : unfold_wo_center images k d
      = some (unfold_wo_center_core images k d) := by
    rw [unfold_wo_center, if_pos ⟨h4, hk⟩]
  have hu2 : unfold_wo_center (unsqueeze2 image_masks) k d
      = some (unfold_wo_center_core (unsqueeze2 image_masks) k d) := by
    rw [unfold_wo_center, if_pos]
    exact ⟨by simp [unsqueeze2, hm], hk⟩
  rw [get_images_color_similarity, if_pos ⟨h4, hb⟩, colorSimWeights, hu1, hu2]
  show ((selectChannel0 (unfold_wo_center_core (unsqueeze2 image_masks) k d)).entry idx = 1 →
          0 < simEntry images (unfold_wo_center_core images k d) idx
              * (selectChannel0 (unfold_wo_center_core (unsqueeze2 image_masks) k d)).entry idx ∧
          simEntry images (unfold_wo_center_core images k d) idx
              * (selectChannel0 (unfold_wo_center_core (unsqueeze2 image_masks) k d)).entry idx ≤ 1) ∧
        ((selectChannel0 (unfold_wo_center_core (unsqueeze2 image_masks) k d)).entry idx = 0 →
          simEntry images (unfold_wo_center_core images k d) idx
              * (selectChannel0 (unfold_wo_center_core (unsqueeze2 image_masks) k d)).entry idx = 0)
  constructor
  · intro hw1
    rw [hw1, mul_one]
    refine ⟨Real.exp_pos _, ?_⟩
    rw [simEntry]
    calc Real.exp _ ≤ Real.exp 0 := by
          apply Real.exp_le_exp.mpr
          have hnn := Real.sqrt_nonneg (∑ c ∈ Finset.range (images.shape.getD 1 0),
            (images.entry [idx.getD 0 0, c, idx.getD 2 0, idx.getD 3 0]
              - (unfold_wo_center_core images k d).entry
                  [idx.getD 0 0, c, idx.getD 1 0, idx.getD 2 0, idx.getD 3 0]) ^ 2)
          linarith
      _ = 1 := Real.exp_zero
  · intro hw0
    rw [hw0, mul_zero]

/-- A concrete `1×3×2×2` zero image tensor. -/
noncomputable def imgA : PyTensor := ⟨[1, 3, 2, 2], fun _ => 0⟩

/-- A concrete `2×2` all-ones validity mask. -/
noncomputable def maskA : PyTensor := ⟨[2, 2], fun _ => 1⟩

/-- C7 (witness): the range property instantiated on the `1×3×2×2` zero image
with its `2×2` all-ones mask, kernel `3`, dilation `2`, at index `(0,0,1,1)`. -/
theorem color_similarity_entry_range_witness :
    (get_images_color_similarity imgA maskA 3 2).elim False fun y =>
      (colorSimWeights maskA 3 2).elim False fun uw =>
        (uw.entry [0, 0, 1, 1] = 1 → 0 < y.entry [0, 0, 1, 1] ∧ y.entry [0, 0, 1, 1] ≤ 1) ∧
        (uw.entry [0, 0, 1, 1] = 0 → y.entry [0, 0, 1, 1] = 0) :=
  color_similarity_entry_range imgA maskA 3 2 [0, 0, 1, 1] rfl rfl rfl rfl

/-- C8 (counterexample): on a valid single-image input (`1×3×2×2`, batch
dimension 1) with kernel size 3, the colour-similarity builder returns a
tensor of shape `(1, 8, 2, 2)` — rank 4, with a leading batch dimension —
not the claimed rank-3 shape `(8, 2, 2)`. -/
theorem color_similarity_rank_counterexample :
    (get_images_color_similarity imgA maskA 3 2).map PyTensor.shape
        = some [1, 8, 2, 2] ∧
    ¬ (get_images_color_similarity imgA maskA 3 2).map PyTensor.shape
        = some [8, 2, 2] := by
  have h : (get_images_color_similarity imgA maskA 3 2).map PyTensor.shape
      = some [1, 8, 2, 2] := rfl
  rw [h]
  exact ⟨rfl, by simp⟩

/-- C8 (amended): for every valid single-image input (4-D, batch dimension 1)
with odd kernel size `k ≥ 3` and dilation `d ≥ 1`, the colour-similarity
builder returns a tensor of shape exactly `(1, k²−1, H, W)`: rank 4 with a
leading batch dimension of size 1. -/
theorem color_similarity_output_shape (images image_masks : PyTensor)
    (C H W k d : ℕ)
    (hs : images.shape = [1, C, H, W]) (hm : image_masks.shape.length = 2)
    (hk : k % 2 = 1) (hk3 : 3 ≤ k) (hd : 1 ≤ d)
    (hC : 0 < C) (hH : 0 < H) (hW : 0 < W) :
    (get_images_color_similarity images image_masks k d).elim False fun y =>
      y.shape = [1, k * k - 1, H, W] := by
  have hcore := unfold_wo_center_core_shape images 1 C H W k d hs hk hd
    one_pos hC hH hW
  have h4 : images.shape.length = 4 := by rw [hs]; rfl
  have hb : images.shape.getD 0 0 = 1 := by rw [hs]; rfl
  have hu1 : unfold_wo_center images k d
      = some (unfold_wo_center_core images k d) := by
    rw [unfold_wo_center, if_pos ⟨h4, hk⟩]
  have hu2 : unfold_wo_center (unsqueeze2 image_masks) k d
      = some (unfold_wo_center_core (unsqueeze2 image_masks) k d) := by
    rw [unfold_wo_center, if_pos]
    exact ⟨by simp [unsqueeze2, hm], hk⟩
  rw [get_images_color_similarity, if_pos ⟨h4, hb⟩, colorSimWeights, hu1, hu2]
  show dropDim1 (unfold_wo_center_core images k d).shape = [1, k * k - 1, H, W]
  rw [hcore]
  rfl

/-- C8 (witness for the amended theorem): the shape property instantiated on
the `1×3×2×2` zero image with kernel `3`, dilation `2`. -/
theorem color_similarity_output_shape_witness :
    (get_images_color_similarity imgA maskA 3 2).elim False fun y =>
      y.shape = [1, 8, 2, 2] :=
  color_similarity_output_shape imgA maskA 3 2 2 3 2 rfl rfl (by norm_num)
    (by norm_num) (by norm_num) (by norm_num) (by norm_num) (by norm_num)

/-- A ground-truth box `(x1, y1, x2, y2)` with float coordinates modelled as
rationals. -/
structure Box where
  x1 : ℚ
  y1 : ℚ
  x2 : ℚ
  y2 : ℚ

/-- Python `int(·)` on a float: truncation toward zero. -/
def pyInt (q : ℚ) : ℤ := if 0 ≤ q then ⌊q⌋ else ⌈q⌉

/-- A Python slice bound on an axis of length `n`: negative values count from
the end, and the result is clamped into `[0, n]`. -/
def pySliceBound (n : ℕ) (a : ℤ) : ℕ :=
  min (if a < 0 then ((n : ℤ) + a).toNat else a.toNat) n

/-- The pseudo-mask built per box in `prepare_targets`: an all-zero `(h, w)`
canvas with `bitmask_full[int(y1):int(y2+1), int(x1):int(x2+1)] = 1.0`
(Python slice semantics). -/
def pseudoMask (h w : ℕ) (b : Box) : GridQ :=
  { h := h, w := w,
    entry := fun r c =>
      if pySliceBound h (pyInt b.y1) ≤ r ∧ r < pySliceBound h (pyInt (b.y2 + 1)) ∧
         pySliceBound w (pyInt b.x1) ≤ c ∧ c < pySliceBound w (pyInt (b.x2 + 1))
      then 1 else 0 }

/-- A per-image ground-truth record (`detectron2` `Instances`): class labels,
boxes, image size `(h, w)`, and the `image_color_similarity` attribute, which
is only present (`some`) once `add_bitmasks_from_boxes` has attached it. -/
structure GTInstances where
  gt_classes : List ℕ
  gt_boxes : List Box
  image_size : ℕ × ℕ
  image_color_similarity : Option PyTensor

/-- The per-image target record assembled by `prepare_targets`. -/
structure Target where
  color_sim : PyTensor
  labels : List ℕ
  boxes : List Box
  masks : List GridQ

/-- Sequential `Option`-monadic map: a Python loop in which any raised
exception aborts the whole call. -/
def optionMapM (f : α → Option β) : List α → Option (List β)
  | [] => some []
  | a :: l => (f a).bind fun b => (optionMapM f l).map fun bs => b :: bs

/-- One iteration of `prepare_targets`: reads `image_color_similarity` (an
`AttributeError` — `none` — if the attribute was never attached), builds the
pseudo-mask list from the boxes, and stacks it (`torch.stack` raises — `none`
— on an empty list). -/
def prepare_targets_per_image (inst : GTInstances) : Option Target :=
  match inst.image_color_similarity with
  | none => none
  | some cs =>
      let bitmasks := inst.gt_boxes.map
        (pseudoMask inst.image_size.1 inst.image_size.2)
      if bitmasks.isEmpty then none
      else some { color_sim := cs, labels := inst.gt_classes,
                  boxes := inst.gt_boxes, masks := bitmasks }

/-- `prepare_targets` over a batch of per-image ground truth. -/
def prepare_targets (targets : List GTInstances) : Option (List Target) :=
  optionMapM prepare_targets_per_image targets

lemma pySliceBound_of_bounds {n : ℕ} {a : ℤ} (h0 : 0 ≤ a) (hn : a ≤ (n : ℤ)) :
    pySliceBound n a = a.toNat := by
  rw [pySliceBound, if_neg (not_lt.mpr h0)]
  exact min_eq_left (Int.toNat_le.mpr hn)

lemma prepare_targets_per_image_of_none {inst : GTInstances}
    (h : inst.image_color_similarity = none) :
    prepare_targets_per_image inst = none := by
  simp [prepare_targets_per_image, h]

lemma prepare_targets_per_image_of_some {inst : GTInstances} {cs : PyTensor}
    (h : inst.image_color_similarity = some cs) :
    prepare_targets_per_image inst =
      if (inst.gt_boxes.map (pseudoMask inst.image_size.1 inst.image_size.2)).isEmpty
      then none
      else some ⟨cs, inst.gt_classes, inst.gt_boxes,
        inst.gt_boxes.map (pseudoMask inst.image_size.1 inst.image_size.2)⟩ := by
  simp [prepare_targets_per_image, h]

lemma pyInt_of_nonneg {q : ℚ} (h : 0 ≤ q) : pyInt q = ⌊q⌋ := if_pos h

lemma pyInt_le_natCast {q : ℚ} {n : ℕ} (h0 : 0 ≤ q) (h : q ≤ (n : ℚ)) :
    pyInt q ≤ (n : ℤ) := by
  rw [pyInt_of_nonneg h0]
  have := Int.floor_le_floor h
  rwa [Int.floor_natCast] at this

/-- C3: under in-bounds box coordinates, the pseudo-mask is an `(h, w)` grid
equal to `1` exactly on rows `int(y1) … int(y2+1)−1` and columns
`int(x1) … int(x2+1)−1` and `0` elsewhere; the full-image box
`(0, 0, w−1, h−1)` yields an all-ones mask; and the stacked mask list of
`prepare_targets` is ordered identically to the box sequence. -/
theorem pseudoMask_characterization (h w : ℕ) (hh : 0 < h) (hw : 0 < w)
    (b : Box)
    (hx1 : 0 ≤ b.x1) (hy1 : 0 ≤ b.y1) (hx12 : b.x1 ≤ b.x2) (hy12 : b.y1 ≤ b.y2)
    (hx2 : b.x2 + 1 ≤ (w : ℚ)) (hy2 : b.y2 + 1 ≤ (h : ℚ))
    (r c : ℕ) (hr : r < h) (hc : c < w) (inst : GTInstances) (i : ℕ) :
    (pseudoMask h w b).h = h ∧ (pseudoMask h w b).w = w ∧
    ((pseudoMask h w b).entry r c
        = if pyInt b.y1 ≤ (r : ℤ) ∧ (r : ℤ) ≤ pyInt (b.y2 + 1) - 1 ∧
             pyInt b.x1 ≤ (c : ℤ) ∧ (c : ℤ) ≤ pyInt (b.x2 + 1) - 1
          then 1 else 0) ∧
    (pseudoMask h w ⟨0, 0, (w : ℚ) - 1, (h : ℚ) - 1⟩).entry r c = 1 ∧
    ((prepare_targets_per_image inst).elim True fun t =>
      t.masks[i]? = (inst.gt_boxes[i]?).map
        (pseudoMask inst.image_size.1 inst.image_size.2)) := by
  have hy1f : 0 ≤ pyInt b.y1 := by
    rw [pyInt_of_nonneg hy1]; exact Int.floor_nonneg.mpr hy1
  have hx1f : 0 ≤ pyInt b.x1 := by
    rw [pyInt_of_nonneg hx1]; exact Int.floor_nonneg.mpr hx1
  have hy2f : pyInt (b.y2 + 1) ≤ (h : ℤ) :=
    pyInt_le_natCast (by linarith) hy2
  have hx2f : pyInt (b.x2 + 1) ≤ (w : ℤ) :=
    pyInt_le_natCast (by linarith) hx2
  have hy1h : pyInt b.y1 ≤ (h : ℤ) := by
    have : pyInt b.y1 ≤ pyInt (b.y2 + 1) := by
      rw [pyInt_of_nonneg hy1, pyInt_of_nonneg (by linarith : (0:ℚ) ≤ b.y2 + 1)]
      exact Int.floor_le_floor (by linarith)
    omega
  have hx1w : pyInt b.x1 ≤ (w : ℤ) := by
    have : pyInt b.x1 ≤ pyInt (b.x2 + 1) := by
      rw [pyInt_of_nonneg hx1, pyInt_of_nonneg (by linarith : (0:ℚ) ≤ b.x2 + 1)]
      exact Int.floor_le_floor (by linarith)
    omega
  have hy2f0 : 0 ≤ pyInt (b.y2 + 1) := by
    rw [pyInt_of_nonneg (by linarith : (0:ℚ) ≤ b.y2 + 1)]
    exact Int.floor_nonneg.mpr (by linarith)
  have hx2f0 : 0 ≤ pyInt (b.x2 + 1) := by
    rw [pyInt_of_nonneg (by linarith : (0:ℚ) ≤ b.x2 + 1)]
    exact Int.floor_nonneg.mpr (by linarith)
  refine ⟨rfl, rfl, ?_, ?_, ?_⟩
  · show (if pySliceBound h (pyInt b.y1) ≤ r ∧ r < pySliceBound h (pyInt (b.y2 + 1)) ∧
         pySliceBound w (pyInt b.x1) ≤ c ∧ c < pySliceBound w (pyInt (b.x2 + 1))
      then (1 : ℚ) else 0) = _
    rw [pySliceBound_of_bounds hy1f hy1h, pySliceBound_of_bounds hy2f0 hy2f,
      pySliceBound_of_bounds hx1f hx1w, pySliceBound_of_bounds hx2f0 hx2f]
    apply if_congr _ rfl rfl
    omega
  · show (if pySliceBound h (pyInt (0 : ℚ)) ≤ r ∧
         r < pySliceBound h (pyInt ((h : ℚ) - 1 + 1)) ∧
         pySliceBound w (pyInt (0 : ℚ)) ≤ c ∧
         c < pySliceBound w (pyInt ((w : ℚ) - 1 + 1))
      then (1 : ℚ) else 0) = 1
    have hz : pyInt (0 : ℚ) = 0 := by
      rw [pyInt_of_nonneg le_rfl]; exact Int.floor_zero
    have hhh : pyInt ((h : ℚ) - 1 + 1) = (h : ℤ) := by
      rw [show ((h : ℚ) - 1 + 1) = (h : ℚ) by ring,
        pyInt_of_nonneg (by positivity), Int.floor_natCast]
    have hww : pyInt ((w : ℚ) - 1 + 1) = (w : ℤ) := by
      rw [show ((w : ℚ) - 1 + 1) = (w : ℚ) by ring,
        pyInt_of_nonneg (by positivity), Int.floor_natCast]
    rw [hz, hhh, hww,
      pySliceBound_of_bounds (le_refl (0 : ℤ)) (Int.natCast_nonneg h),
      pySliceBound_of_bounds (le_refl (0 : ℤ)) (Int.natCast_nonneg w),
      pySliceBound_of_bounds (Int.natCast_nonneg h) le_rfl,
      pySliceBound_of_bounds (Int.natCast_nonneg w) le_rfl]
    rw [if_pos]
    refine ⟨by omega, by omega, by omega, by omega⟩
  · rcases hcs : inst.image_color_similarity with _ | cs
    · rw [prepare_targets_per_image_of_none hcs]
      exact trivial
    · rw [prepare_targets_per_image_of_some hcs]
      by_cases hbx : (inst.gt_boxes.map
          (pseudoMask inst.image_size.1 inst.image_size.2)).isEmpty
      · rw [if_pos hbx]
        exact trivial
      · rw [if_neg hbx]
        show (inst.gt_boxes.map (pseudoMask inst.image_size.1 inst.image_size.2))[i]?
            = (inst.gt_boxes[i]?).map (pseudoMask inst.image_size.1 inst.image_size.2)
        exact List.getElem?_map _ _ _

/-- A concrete in-bounds box `(1, 1, 2, 2)`. -/
def boxA : Box := ⟨1, 1, 2, 2⟩

/-- A concrete one-instance ground-truth record on a `4×4` image, with a
colour-similarity tensor attached. -/
noncomputable def instA : GTInstances := ⟨[0], [boxA], (4, 4), some imgA⟩

/-- C3 (witness): the rectangle characterization instantiated at the box
`(1, 1, 2, 2)` on a `4×4` image at pixel `(1, 1)`. -/
theorem pseudoMask_characterization_witness :
    (pseudoMask 4 4 boxA).entry 1 1
        = if pyInt boxA.y1 ≤ (1 : ℤ) ∧ (1 : ℤ) ≤ pyInt (boxA.y2 + 1) - 1 ∧
             pyInt boxA.x1 ≤ (1 : ℤ) ∧ (1 : ℤ) ≤ pyInt (boxA.x2 + 1) - 1
          then 1 else 0 :=
  ((pseudoMask_characterization 4 4 (by norm_num) (by norm_num) boxA
    (by norm_num [boxA]) (by norm_num [boxA]) (by norm_num [boxA])
    (by norm_num [boxA]) (by norm_num [boxA]) (by norm_num [boxA])
    1 1 (by norm_num) (by norm_num) instA 0).2.2).1

/-- `F.avg_pool2d(images.float(), kernel_size=4, stride=4, padding=0)`. -/
noncomputable def avgPool4 (images : PyTensor) : PyTensor :=
  { shape := [images.shape.getD 0 0, images.shape.getD 1 0,
              images.shape.getD 2 0 / 4, images.shape.getD 3 0 / 4],
    entry := fun idx =>
      (∑ a ∈ Finset.range 4, ∑ b ∈ Finset.range 4,
        images.entry [idx.getD 0 0, idx.getD 1 0,
          4 * idx.getD 2 0 + a, 4 * idx.getD 3 0 + b]) / 16 }

/-- `image_masks[:, start::stride, start::stride]` with `stride = 4`,
`start = 2` on a rank-3 `(B, H, W)` mask tensor. -/
def subsampleMask (image_masks : PyTensor) : PyTensor :=
  { shape := [image_masks.shape.getD 0 0,
              (image_masks.shape.getD 1 0 - 2 + 3) / 4,
              (image_masks.shape.getD 2 0 - 2 + 3) / 4],
    entry := fun idx =>
      image_masks.entry [idx.getD 0 0, 2 + 4 * idx.getD 1 0, 2 + 4 * idx.getD 2 0] }

/-- `.byte()` on a float value: truncation toward zero, wrapped modulo 256. -/
noncomputable def byteVal (x : ℝ) : ℝ :=
  (((if 0 ≤ x then ⌊x⌋ else ⌈x⌉) % 256 : ℤ) : ℝ)

/-- `torch.as_tensor(color.rgb2lab(downsampled[i].byte().permute(1, 2, 0)))
.permute(2, 0, 1)[None]`: the per-image `1×3×H'×W'` colour-space tensor.  The
external `skimage` pixel-wise conversion is a parameter `lab`. -/
noncomputable def imagesLab (lab : ℝ → ℝ → ℝ → ℝ × ℝ × ℝ)
    (downsampled : PyTensor) (imIdx : ℕ) : PyTensor :=
  { shape := [1, 3, downsampled.shape.getD 2 0, downsampled.shape.getD 3 0],
    entry := fun idx =>
      let r := byteVal (downsampled.entry [imIdx, 0, idx.getD 2 0, idx.getD 3 0])
      let g := byteVal (downsampled.entry [imIdx, 1, idx.getD 2 0, idx.getD 3 0])
      let bl := byteVal (downsampled.entry [imIdx, 2, idx.getD 2 0, idx.getD 3 0])
      if idx.getD 1 0 = 0 then (lab r g bl).1
      else if idx.getD 1 0 = 1 then (lab r g bl).2.1 else (lab r g bl).2.2 }

/-- `t[i]` on the leading dimension. -/
def indexDim0 (t : PyTensor) (i : ℕ) : PyTensor :=
  { shape := t.shape.drop 1, entry := fun idx => t.entry (i :: idx) }

/-- `torch.cat([t for _ in range(n)], dim=0)` for identical blocks. -/
def catReplicate (t : PyTensor) (n : ℕ) : PyTensor :=
  { shape := n * t.shape.getD 0 0 :: t.shape.drop 1,
    entry := fun idx => t.entry (idx.set 0 (idx.getD 0 0 % t.shape.getD 0 0)) }

/-- One iteration of the loop in `add_bitmasks_from_boxes`: build the Lab
image, call `get_images_color_similarity` (kernel 3, dilation 2), and attach
the replicated map only when the image has at least one instance. -/
noncomputable def addBitmasksPerImage (lab : ℝ → ℝ → ℝ → ℝ × ℝ × ℝ)
    (downsampled masksSub : PyTensor) (p : ℕ × GTInstances) :
    Option GTInstances :=
  (get_images_color_similarity (imagesLab lab downsampled p.1)
      (indexDim0 masksSub p.1) 3 2).map fun ics =>
    if 0 < p.2.gt_boxes.length then
      ⟨p.2.gt_classes, p.2.gt_boxes, p.2.image_size,
        some (catReplicate ics p.2.gt_boxes.length)⟩
    else p.2

/-- `add_bitmasks_from_boxes(instances, images, image_masks, …)`: `none`
models the fatal `assert images.size(2) % 4 == 0` /
`assert images.size(3) % 4 == 0` failures; the caller-side mutation of the
instances is modelled by returning the updated list (the unused `im_h`,
`im_w` parameters are omitted). -/
noncomputable def add_bitmasks_from_boxes (lab : ℝ → ℝ → ℝ → ℝ × ℝ × ℝ)
    (instances : List GTInstances) (images image_masks : PyTensor) :
    Option (List GTInstances) :=
  if images.shape.getD 2 0 % 4 = 0 ∧ images.shape.getD 3 0 % 4 = 0 then
    optionMapM
      (addBitmasksPerImage lab (avgPool4 images) (subsampleMask image_masks))
      instances.enum
  else none

/-- A zero-instance ground-truth record on an `8×8` image, before
colour-similarity attachment. -/
def instEmpty : GTInstances := ⟨[], [], (8, 8), none⟩

/-- The identity colour transform, a stand-in instantiation of the external
`rgb2lab` parameter. -/
def labId : ℝ → ℝ → ℝ → ℝ × ℝ × ℝ := fun r g b => (r, g, b)

/-- A concrete padded `1×3×8×8` zero image batch. -/
noncomputable def imgsB : PyTensor := ⟨[1, 3, 8, 8], fun _ => 0⟩

/-- A concrete `1×8×8` all-ones image-mask batch. -/
noncomputable def masksB : PyTensor := ⟨[1, 8, 8], fun _ => 1⟩

/-- C2: on a batch of one image with zero ground-truth instances,
`add_bitmasks_from_boxes` succeeds but never attaches
`image_color_similarity` (the `if len(per_im_gt_inst) > 0` guard skips the
image), after which `prepare_targets` aborts: reading the missing attribute
raises `AttributeError`, and even with the attribute present `torch.stack` on
the empty pseudo-mask list raises.  No empty instance set is produced. -/
theorem prepare_targets_zero_instances_crash :
    (add_bitmasks_from_boxes labId [instEmpty] imgsB masksB).elim False
      (fun out => prepare_targets out = none) ∧
    prepare_targets_per_image ⟨[], [], (8, 8), some imgA⟩ = none := by
  exact ⟨rfl, rfl⟩

lemma addBitmasksPerImage_isSome (lab : ℝ → ℝ → ℝ → ℝ × ℝ × ℝ)
    (images image_masks : PyTensor) (p : ℕ × GTInstances) :
    (addBitmasksPerImage lab (avgPool4 images) (subsampleMask image_masks) p).isSome := by
  have h4 : (imagesLab lab (avgPool4 images) p.1).shape.length = 4 := rfl
  have hb : (imagesLab lab (avgPool4 images) p.1).shape.getD 0 0 = 1 := rfl
  have hm : (indexDim0 (subsampleMask image_masks) p.1).shape.length = 2 := rfl
  have hu1 : unfold_wo_center (imagesLab lab (avgPool4 images) p.1) 3 2
      = some (unfold_wo_center_core (imagesLab lab (avgPool4 images) p.1) 3 2) := by
    rw [unfold_wo_center, if_pos ⟨h4, by norm_num⟩]
  have hu2 : unfold_wo_center (unsqueeze2 (indexDim0 (subsampleMask image_masks) p.1)) 3 2
      = some (unfold_wo_center_core
          (unsqueeze2 (indexDim0 (subsampleMask image_masks) p.1)) 3 2) := by
    rw [unfold_wo_center, if_pos]
    exact ⟨by simp [unsqueeze2, hm], by norm_num⟩
  rw [addBitmasksPerImage, get_images_color_similarity, if_pos ⟨h4, hb⟩,
    colorSimWeights, hu1, hu2]
  rfl

lemma optionMapM_isSome {α β : Type} (f : α → Option β) (l : List α)
    (h : ∀ a ∈ l, (f a).isSome) : (optionMapM f l).isSome := by
  induction l with
  | nil => rfl
  | cons a l ih =>
      show ((f a).bind fun b => (optionMapM f l).map fun bs => b :: bs).isSome
      obtain ⟨b, hb⟩ := Option.isSome_iff_exists.mp (h a (List.mem_cons_self a l))
      obtain ⟨bs, hbs⟩ := Option.isSome_iff_exists.mp
        (ih fun x hx => h x (List.mem_cons_of_mem a hx))
      rw [hb, hbs]
      rfl

/-- C9: each stated precondition is enforced by an assertion failing exactly on
its violation: for every input tensor, kernel size and dilation — no parity
assumption on `k`, so even kernels are covered — `unfold_wo_center` aborts iff
its input is not 4-D or the kernel size is even; `get_images_color_similarity`
(on a 4-D image, odd kernel `k2`, 2-D mask) aborts iff the batch dimension is
not 1; and `add_bitmasks_from_boxes` aborts iff the padded image height or
width is not divisible by the stride 4 — in each case the abort is the fatal
`assert` (`none`), with no coercion or recovery. -/
theorem assertion_guards (x imgT maskT images image_masks : PyTensor)
    (k d k2 d2 : ℕ) (lab : ℝ → ℝ → ℝ → ℝ × ℝ × ℝ)
    (instances : List GTInstances)
    (h4 : imgT.shape.length = 4) (hk2 : k2 % 2 = 1)
    (hm : maskT.shape.length = 2) :
    (unfold_wo_center x k d = none ↔ ¬ (x.shape.length = 4 ∧ k % 2 = 1)) ∧
    (get_images_color_similarity imgT maskT k2 d2 = none ↔
      ¬ imgT.shape.getD 0 0 = 1) ∧
    (add_bitmasks_from_boxes lab instances images image_masks = none ↔
      ¬ (images.shape.getD 2 0 % 4 = 0 ∧ images.shape.getD 3 0 % 4 = 0)) := by
  refine ⟨?_, ?_, ?_⟩
  · rw [unfold_wo_center]
    by_cases hcond : x.shape.length = 4 ∧ k % 2 = 1
    · rw [if_pos hcond]
      simp [hcond]
    · rw [if_neg hcond]
      simp [hcond]
  · rw [get_images_color_similarity]
    by_cases hbT : imgT.shape.getD 0 0 = 1
    · rw [if_pos ⟨h4, hbT⟩]
      have hu1 : unfold_wo_center imgT k2 d2
          = some (unfold_wo_center_core imgT k2 d2) := by
        rw [unfold_wo_center, if_pos ⟨h4, hk2⟩]
      have hu2 : unfold_wo_center (unsqueeze2 maskT) k2 d2
          = some (unfold_wo_center_core (unsqueeze2 maskT) k2 d2) := by
        rw [unfold_wo_center, if_pos]
        exact ⟨by simp [unsqueeze2, hm], hk2⟩
      rw [colorSimWeights, hu1, hu2]
      simp only [Option.map_some', Option.some_bind]
      constructor
      · intro hnone
        exact absurd hnone (Option.some_ne_none _)
      · intro hcon
        exact absurd hbT hcon
    · rw [if_neg fun hc => hbT hc.2]
      simp only [true_iff]
      exact hbT
  · rw [add_bitmasks_from_boxes]
    by_cases hdiv : images.shape.getD 2 0 % 4 = 0 ∧ images.shape.getD 3 0 % 4 = 0
    · rw [if_pos hdiv]
      have hsome := optionMapM_isSome
        (addBitmasksPerImage lab (avgPool4 images) (subsampleMask image_masks))
        instances.enum
        (fun a _ => addBitmasksPerImage_isSome lab images image_masks a)
      constructor
      · intro hnone
        rw [hnone] at hsome
        simp at hsome
      · intro hcon
        exact absurd hdiv hcon
    · rw [if_neg hdiv]
      simp only [true_iff]
      exact hdiv

/-- C9 (witness): the guard equivalences instantiated on concrete tensors —
the 4-D `1×3×2×2` image with the even kernel size `2` for the unfold input,
so the last conjunct shows the odd-kernel assert itself firing; the same
image with its `2×2` mask and kernel `3` for the colour-similarity guard;
and the divisible `1×3×8×8` training batch. -/
theorem assertion_guards_witness :
    (unfold_wo_center imgA 2 1 = none ↔ ¬ (imgA.shape.length = 4 ∧ 2 % 2 = 1)) ∧
    (get_images_color_similarity imgA maskA 3 2 = none ↔
      ¬ imgA.shape.getD 0 0 = 1) ∧
    (add_bitmasks_from_boxes labId [instEmpty] imgsB masksB = none ↔
      ¬ (imgsB.shape.getD 2 0 % 4 = 0 ∧ imgsB.shape.getD 3 0 % 4 = 0)) ∧
    unfold_wo_center imgA 2 1 = none :=
  have h := assertion_guards imgA imgA maskA imgsB masksB 2 1 3 2 labId
    [instEmpty] rfl rfl rfl
  ⟨h.1, h.2.1, h.2.2, h.1.mpr (by decide)⟩

/-- `torch.sigmoid`. -/
noncomputable def sigmoid (x : ℝ) : ℝ := 1 / (1 + Real.exp (-x))

lemma sigmoid_pos (x : ℝ) : 0 < sigmoid x := by
  rw [sigmoid]
  positivity

lemma sigmoid_lt_one (x : ℝ) : sigmoid x < 1 := by
  rw [sigmoid, div_lt_one (by positivity)]
  have := Real.exp_pos (-x)
  linarith

/-- One instance slot of the decoder output: its per-class logits
(`pred_logits`), its low-resolution mask logits (`pred_masks`), and its
objectness logit (`pred_scores`). -/
structure SlotPred where
  clsLogits : List ℝ
  maskLogits : GridR
  objLogit : ℝ

/-- `torch.sqrt(pred_logits.sigmoid() * pred_objectness.sigmoid())` for one
slot: the per-class combined confidence. -/
noncomputable def combinedScores (s : SlotPred) : List ℝ :=
  s.clsLogits.map fun z => Real.sqrt (sigmoid z * sigmoid s.objLogit)

/-- Max with first-index argmax over a list, carrying the current best value,
its index, and the index of the next element. -/
noncomputable def argmaxAux : ℝ → ℕ → ℕ → List ℝ → ℝ × ℕ
  | v, vi, _, [] => (v, vi)
  | v, vi, cur, x :: xs =>
      if v < x then argmaxAux x cur (cur + 1) xs
      else argmaxAux v vi (cur + 1) xs

/-- `scores_per_image.max(dim=-1)`: best value and first-index argmax (junk
`(0, 0)` on an empty class list, which `torch` would reject). -/
noncomputable def argmaxFirst : List ℝ → ℝ × ℕ
  | [] => (0, 0)
  | x :: xs => argmaxAux x 0 1 xs

lemma argmaxAux_fst_mem (v : ℝ) (vi cur : ℕ) (l : List ℝ) :
    (argmaxAux v vi cur l).1 = v ∨ (argmaxAux v vi cur l).1 ∈ l := by
  induction l generalizing v vi cur with
  | nil => exact Or.inl rfl
  | cons x xs ih =>
      have heq : argmaxAux v vi cur (x :: xs)
          = if v < x then argmaxAux x cur (cur + 1) xs
            else argmaxAux v vi (cur + 1) xs := rfl
      rw [heq]
      by_cases hvx : v < x
      · rw [if_pos hvx]
        rcases ih x cur (cur + 1) with h | h
        · exact Or.inr (by rw [h]; exact List.mem_cons_self x xs)
        · exact Or.inr (List.mem_cons_of_mem x h)
      · rw [if_neg hvx]
        rcases ih v vi (cur + 1) with h | h
        · exact Or.inl h
        · exact Or.inr (List.mem_cons_of_mem x h)

lemma combinedScores_mem_bounds (s : SlotPred) (x : ℝ)
    (hx : x ∈ combinedScores s) : 0 ≤ x ∧ x ≤ 1 := by
  rw [combinedScores] at hx
  obtain ⟨z, _, hz⟩ := List.mem_map.mp hx
  subst hz
  refine ⟨Real.sqrt_nonneg _, Real.sqrt_le_one.mpr ?_⟩
  have h1 := sigmoid_pos z
  have h2 := sigmoid_lt_one z
  have h3 := sigmoid_pos s.objLogit
  have h4 := sigmoid_lt_one s.objLogit
  nlinarith

lemma argmaxFirst_fst_bounds (s : SlotPred) :
    0 ≤ (argmaxFirst (combinedScores s)).1 ∧
    (argmaxFirst (combinedScores s)).1 ≤ 1 := by
  cases hcl : combinedScores s with
  | nil => exact ⟨le_refl 0, zero_le_one⟩
  | cons x xs =>
      have hmem : (argmaxAux x 0 1 xs).1 ∈ x :: xs := by
        rcases argmaxAux_fst_mem x 0 1 xs with h | h
        · rw [h]; exact List.mem_cons_self x xs
        · exact List.mem_cons_of_mem x h
      exact combinedScores_mem_bounds s _ (by rw [hcl]; exact hmem)

/-- `sigmoid` applied entrywise to mask logits. -/
noncomputable def sigmoidGrid (g : GridR) : GridR :=
  ⟨g.h, g.w, fun i j => sigmoid (g.entry i j)⟩

/-- `mask > threshold`: entrywise strict binarization. -/
noncomputable def binarize (θ : ℝ) (g : GridR) : GridB :=
  ⟨g.h, g.w, fun i j => decide (θ < g.entry i j)⟩

/-- `mask[:, :, :h, :w]`: crop to the valid region (slicing clamps). -/
def cropGrid (g : GridR) (h w : ℕ) : GridR := ⟨min g.h h, min g.w w, g.entry⟩

/-- Clamp an integer sample index into `[0, n−1]`. -/
def clampIdx (n : ℕ) (a : ℤ) : ℕ := min (max a 0).toNat (n - 1)

/-- `F.interpolate(·, size=(H, W), mode="bilinear", align_corners=False)` on
one spatial plane: source coordinates `(dst + 0.5)·scale − 0.5` with
edge-clamped sample indices and bilinear weights. -/
noncomputable def bilinearResize (g : GridR) (H W : ℕ) : GridR :=
  { h := H, w := W,
    entry := fun i j =>
      let sy : ℝ := ((i : ℝ) + 1 / 2) * ((g.h : ℝ) / (H : ℝ)) - 1 / 2
      let sx : ℝ := ((j : ℝ) + 1 / 2) * ((g.w : ℝ) / (W : ℝ)) - 1 / 2
      let y0 : ℤ := ⌊sy⌋
      let x0 : ℤ := ⌊sx⌋
      let dy : ℝ := sy - (y0 : ℝ)
      let dx : ℝ := sx - (x0 : ℝ)
      let v : ℤ → ℤ → ℝ := fun a b => g.entry (clampIdx g.h a) (clampIdx g.w b)
      (1 - dy) * ((1 - dx) * v y0 x0 + dx * v y0 (x0 + 1))
        + dy * ((1 - dx) * v (y0 + 1) x0 + dx * v (y0 + 1) (x0 + 1)) }

/-- One image of an inference batch: its decoder slots, the original
`batched_input` height/width, and the valid (unpadded) region size from
`image_sizes`. -/
structure InferImage where
  slots : List SlotPred
  height : ℕ
  width : ℕ
  imgH : ℕ
  imgW : ℕ

/-- A per-image `Instances` result: creation size, scores, class labels, and
the optional `pred_masks` field (absent for an empty detection set). -/
structure InstResult where
  image_size : ℕ × ℕ
  scores : List ℝ
  pred_classes : List ℕ
  pred_masks : Option (List GridB)

/-- Per-slot `(max score, argmax label)` pairs, keeping the slot. -/
noncomputable def scoredSlots (slots : List SlotPred) :
    List ((ℝ × ℕ) × SlotPred) :=
  slots.map fun s => (argmaxFirst (combinedScores s), s)

/-- `keep = scores > self.cls_threshold`: boolean-mask filtering of the slots
by a strict comparison with the classification threshold. -/
noncomputable def keptSlots (τ : ℝ) (slots : List SlotPred) :
    List ((ℝ × ℕ) × SlotPred) :=
  (scoredSlots slots).filter fun p => decide (τ < p.1.1)

/-- One iteration of `SparseInst.inference`: threshold filtering, the early
empty return (scores and labels present but empty, `pred_masks` never
assigned), and otherwise rescoring plus the two-stage bilinear resampling
(padded canvas, crop to the valid region, resize to the original size) and
final binarization. -/
noncomputable def inference_per_image (τ θ : ℝ) (maxH maxW : ℕ)
    (im : InferImage) : InstResult :=
  let kept := keptSlots τ im.slots
  if kept.isEmpty then
    { image_size := (im.height, im.width),
      scores := kept.map fun p => p.1.1,
      pred_classes := kept.map fun p => p.1.2,
      pred_masks := none }
  else
    let softs := kept.map fun p => sigmoidGrid p.2.maskLogits
    { image_size := (im.height, im.width),
      scores := rescoring_mask (kept.map fun p => p.1.1)
        (softs.map (binarize θ)) softs,
      pred_classes := kept.map fun p => p.1.2,
      pred_masks := some (softs.map fun m =>
        binarize θ (bilinearResize
          (cropGrid (bilinearResize m maxH maxW) im.imgH im.imgW)
          im.height im.width)) }

/-- `SparseInst.inference` over the batch: one result appended per image, in
batch order. -/
noncomputable def inference (τ θ : ℝ) (maxH maxW : ℕ)
    (imgs : List InferImage) : List InstResult :=
  imgs.map (inference_per_image τ θ maxH maxW)

/-- C1: for an image of the inference batch in which no slot's best combined
score exceeds the classification threshold, the post-processor appends, at
that image's position, a well-formed empty result — empty `scores` and
`pred_classes`, the `pred_masks` field never assigned — without raising and
without rescoring or resampling any mask, and the results list keeps one
entry per image. -/
theorem inference_empty_result_below_threshold (τ θ : ℝ) (maxH maxW : ℕ)
    (imgs : List InferImage) (i : ℕ) (hi : i < imgs.length)
    (hbelow : (imgs.get ⟨i, hi⟩).slots.Forall
      fun s => (argmaxFirst (combinedScores s)).1 ≤ τ) :
    (inference τ θ maxH maxW imgs).length = imgs.length ∧
    (inference τ θ maxH maxW imgs)[i]? = some
      ⟨((imgs.get ⟨i, hi⟩).height, (imgs.get ⟨i, hi⟩).width), [], [], none⟩ := by
  have hkept : keptSlots τ (imgs.get ⟨i, hi⟩).slots = [] := by
    rw [keptSlots]
    apply List.filter_eq_nil_iff.mpr
    intro p hp
    rw [scoredSlots] at hp
    obtain ⟨s, hs, hps⟩ := List.mem_map.mp hp
    have hle := (List.forall_iff_forall_mem.mp hbelow) s hs
    rw [← hps]
    simp only [decide_eq_true_eq]
    exact not_lt.mpr hle
  constructor
  · exact List.length_map imgs _
  · have hgl : imgs[i] = imgs.get ⟨i, hi⟩ := rfl
    rw [inference, List.getElem?_map, List.getElem?_eq_getElem hi,
      Option.map_some', hgl]
    have hkept2 : keptSlots τ imgs[i].slots = [] := hkept
    congr 1
    simp [inference_per_image, hkept2]

/-- A concrete inference image with no slots, original size `5×7`, valid
region `4×4`. -/
noncomputable def imNoSlots : InferImage := ⟨[], 5, 7, 4, 4⟩

/-- C1 (witness): a one-image batch with no slots (every best score is
vacuously below the threshold) yields the positional empty result. -/
theorem inference_empty_result_below_threshold_witness :
    (inference 1 (1 / 2) 4 4 [imNoSlots]).length = 1 ∧
    (inference 1 (1 / 2) 4 4 [imNoSlots])[0]? = some ⟨(5, 7), [], [], none⟩ :=
  inference_empty_result_below_threshold 1 (1 / 2) 4 4 [imNoSlots] 0
    (by norm_num) trivial

/-- C10: a slot survives the classification-threshold filter iff its best
combined score is strictly greater than the threshold — in particular a slot
whose best score equals the threshold exactly is discarded. -/
theorem keptSlots_strict_threshold (τ : ℝ) (slots : List SlotPred)
    (p : (ℝ × ℕ) × SlotPred) :
    (p ∈ keptSlots τ slots ↔ p ∈ scoredSlots slots ∧ τ < p.1.1) ∧
    (p.1.1 = τ → p ∉ keptSlots τ slots) := by
  have hiff : p ∈ keptSlots τ slots ↔ p ∈ scoredSlots slots ∧ τ < p.1.1 := by
    rw [keptSlots, List.mem_filter]
    simp only [decide_eq_true_eq]
  refine ⟨hiff, ?_⟩
  intro heq hmem
  have hlt := (hiff.mp hmem).2
  rw [heq] at hlt
  exact lt_irrefl τ hlt

/-- A junk slot with no classes and a `1×1` zero mask. -/
noncomputable def slotNoCls : SlotPred := ⟨[], ⟨1, 1, fun _ _ => 0⟩, 0⟩

/-- C10 (witness): the strict-threshold filter equivalence instantiated at
threshold `0` on the empty slot list. -/
theorem keptSlots_strict_threshold_witness :
    ((((0 : ℝ), 0), slotNoCls) ∈ keptSlots 0 [] ↔
      (((0 : ℝ), 0), slotNoCls) ∈ scoredSlots [] ∧ (0 : ℝ) < 0) ∧
    ((((0 : ℝ), 0), slotNoCls).1.1 = 0 →
      (((0 : ℝ), 0), slotNoCls) ∉ keptSlots 0 []) :=
  keptSlots_strict_threshold 0 [] (((0 : ℝ), 0), slotNoCls)

lemma maskness_factor_bounds (m : GridR) (bp : GridB)
    (hm : ∀ i j, 0 ≤ m.entry i j ∧ m.entry i j ≤ 1)
    (hh : bp.h = m.h) (hw : bp.w = m.w) :
    0 ≤ gridProdSum m bp / (gridBoolSum bp + 1 / 1000000) ∧
    gridProdSum m bp / (gridBoolSum bp + 1 / 1000000) ≤ 1 := by
  have hb0 : (0 : ℝ) ≤ gridBoolSum bp := by
    apply Finset.sum_nonneg; intro i _
    apply Finset.sum_nonneg; intro j _
    by_cases hb : bp.entry i j <;> simp [hb]
  have hden : (0 : ℝ) < gridBoolSum bp + 1 / 1000000 := by linarith
  have hnum0 : (0 : ℝ) ≤ gridProdSum m bp := by
    apply Finset.sum_nonneg; intro i _
    apply Finset.sum_nonneg; intro j _
    by_cases hb : bp.entry i j
    · simpa [hb] using (hm i j).1
    · simp [hb]
  have hnumle : gridProdSum m bp ≤ gridBoolSum bp := by
    rw [gridProdSum, gridBoolSum, hh, hw]
    apply Finset.sum_le_sum; intro i _
    apply Finset.sum_le_sum; intro j _
    by_cases hb : bp.entry i j
    · simpa [hb] using (hm i j).2
    · simp [hb]
  exact ⟨div_nonneg hnum0 hden.le, by rw [div_le_one hden]; linarith⟩

lemma rescoring_mask_forall_bounds (θ : ℝ) (l : List ((ℝ × ℕ) × SlotPred))
    (hl : ∀ p ∈ l, 0 ≤ p.1.1 ∧ p.1.1 ≤ 1) :
    (rescoring_mask (l.map fun p => p.1.1)
        ((l.map fun p => sigmoidGrid p.2.maskLogits).map (binarize θ))
        (l.map fun p => sigmoidGrid p.2.maskLogits)).Forall
      fun s => 0 ≤ s ∧ s ≤ 1 := by
  induction l with
  | nil => exact trivial
  | cons p l ih =>
      refine (List.forall_cons _ _ _).mpr ⟨?_, ?_⟩
      · have hp := hl p (List.mem_cons_self p l)
        have hf := maskness_factor_bounds (sigmoidGrid p.2.maskLogits)
          (binarize θ (sigmoidGrid p.2.maskLogits))
          (fun i j => ⟨(sigmoid_pos _).le, (sigmoid_lt_one _).le⟩) rfl rfl
        constructor
        · exact mul_nonneg hp.1 hf.1
        · calc p.1.1 * (gridProdSum (sigmoidGrid p.2.maskLogits)
                (binarize θ (sigmoidGrid p.2.maskLogits)) /
              (gridBoolSum (binarize θ (sigmoidGrid p.2.maskLogits)) + 1 / 1000000))
              ≤ 1 * 1 := mul_le_mul hp.2 hf.2 hf.1 zero_le_one
            _ = 1 := one_mul 1
      · exact ih fun x hx => hl x (List.mem_cons_of_mem p hx)

/-- C6: every detection emitted by the inference post-processor has a score
in `[0, 1]` — the geometric mean `sqrt(class_prob · objectness_prob)` of two
sigmoid probabilities, multiplied by the maskness factor — and every boolean
mask in the result has shape exactly `(original_height, original_width)`. -/
theorem inference_detection_invariant (τ θ : ℝ) (maxH maxW : ℕ)
    (im : InferImage) :
    ((inference_per_image τ θ maxH maxW im).scores.Forall
      fun s => 0 ≤ s ∧ s ≤ 1) ∧
    ((inference_per_image τ θ maxH maxW im).pred_masks.elim True fun ms =>
      ms.Forall fun m => m.h = im.height ∧ m.w = im.width) := by
  cases hke : (keptSlots τ im.slots).isEmpty with
  | true =>
      have hnil : keptSlots τ im.slots = [] := List.isEmpty_iff.mp hke
      have hip : inference_per_image τ θ maxH maxW im
          = ⟨(im.height, im.width), [], [], none⟩ := by
        simp [inference_per_image, hnil]
      rw [hip]
      exact ⟨trivial, trivial⟩
  | false =>
      have hip : inference_per_image τ θ maxH maxW im
          = ⟨(im.height, im.width),
             rescoring_mask ((keptSlots τ im.slots).map fun p => p.1.1)
               (((keptSlots τ im.slots).map fun p =>
                  sigmoidGrid p.2.maskLogits).map (binarize θ))
               ((keptSlots τ im.slots).map fun p => sigmoidGrid p.2.maskLogits),
             (keptSlots τ im.slots).map fun p => p.1.2,
             some (((keptSlots τ im.slots).map fun p =>
                sigmoidGrid p.2.maskLogits).map fun m =>
              binarize θ (bilinearResize
                (cropGrid (bilinearResize m maxH maxW) im.imgH im.imgW)
                im.height im.width))⟩ := by
        simp only [inference_per_image, hke]
        rfl
      rw [hip]
      constructor
      · apply rescoring_mask_forall_bounds θ (keptSlots τ im.slots)
        intro p hp
        have hmem : p ∈ scoredSlots im.slots := (List.mem_filter.mp hp).1
        obtain ⟨s, hs, hps⟩ := List.mem_map.mp hmem
        rw [← hps]
        exact argmaxFirst_fst_bounds s
      · show List.Forall _ (((keptSlots τ im.slots).map fun p =>
            sigmoidGrid p.2.maskLogits).map fun m =>
          binarize θ (bilinearResize
            (cropGrid (bilinearResize m maxH maxW) im.imgH im.imgW)
            im.height im.width))
        apply List.forall_iff_forall_mem.mpr
        intro m hm
        obtain ⟨m0, _, hm0⟩ := List.mem_map.mp hm
        rw [← hm0]
        exact ⟨rfl, rfl⟩
